import Mathlib

/-!
Verification of the porla session supervisor, workflow runner and
migration driver.  Every definition below is a shallow embedding of the
corresponding C++ function in the repository (src/src/session.cpp,
src/src/workflows/workflow.cpp, src/src/data/migrate.cpp); the theorems
settle the specification claims against these embeddings.
-/

/-! ## JSON values (nlohmann::json as used by the workflow engine)

Numbers are modelled as integers; the workflow condition check compares
the rendered value against boolean `false`, `nullptr` and the integer
literal `0`, which is exactly what `falsyRendered` tests. -/

inductive JVal where
  | null
  | bool (b : Bool)
  | int (n : Int)
  | str (s : String)
  | arr (elems : List JVal)

/-- Embedding of the condition test in `Workflow::ShouldExecute`
(workflow.cpp line 155): `output == false || output == nullptr || output == 0`. -/
def falsyRendered : JVal → Bool
  | JVal.bool false => true
  | JVal.null => true
  | JVal.int n => n == 0
  | _ => false

structure WStep where
  uses : String
  withValue : JVal

/-- Parsed workflow document (workflow.cpp `Workflow`): the trigger set
`m_on` (field `on_events` here because `on` is reserved in Lean), the
optional condition (`""` when the `if:` key is absent, as in
`LoadFromYaml`) and the step list. -/
structure Workflow where
  on_events : List String
  condition : String
  steps : List WStep

/-- Embedding of `Workflow::ShouldExecute` (workflow.cpp lines 141-162).
The renderer is abstracted as a function from the condition text to the
value produced by `TextRenderer::Render(text, true)` under the given
contexts. -/
def ShouldExecute (w : Workflow) (event_name : String) (render : String → JVal) : Bool :=
  if !(w.on_events.contains event_name) then
    false
  else if w.condition ≠ "" then
    if falsyRendered (render w.condition) then false else true
  else
    true

theorem falsyRendered_eq_true_iff (v : JVal) :
    falsyRendered v = true ↔ (v = JVal.bool false ∨ v = JVal.null ∨ v = JVal.int 0) := by
  cases v with
  | null => simp [falsyRendered]
  | bool b => cases b <;> simp [falsyRendered]
  | int n => simp [falsyRendered]
  | str s => simp [falsyRendered]
  | arr l => simp [falsyRendered]

/-! ## Migration driver (migrate.cpp)

A migration is a function on the abstract database state returning the
new state and a sqlite status code (`0` is `SQLITE_OK`).  `user_version`
is stored separately, mirroring the `PRAGMA user_version` cell, which
the individual migrations never touch. -/

structure MigState (σ : Type) where
  user_version : Nat
  db : σ
deriving DecidableEq

/-- The migration loop of `porla::Data::Migrate` (migrate.cpp lines
56-63): `pending` is the list of migrations still to run (the suffix of
the migration table starting at the stored user version), `i` the index
of its head.  Returns the final database state, the success flag and the
list of migration indices that were invoked, in invocation order. -/
def migrateLoop {σ : Type} : List (σ → σ × Int) → Nat → σ → σ × Bool × List Nat
  | [], _, db => (db, true, [])
  | m :: rest, i, db =>
    let r := m db
    if r.2 ≠ 0 then
      (r.1, false, [i])
    else
      let q := migrateLoop rest (i + 1) r.1
      (q.1, q.2.1, i :: q.2.2)

/-- Embedding of `porla::Data::Migrate` (migrate.cpp lines 37-68): run
the migrations from the stored `user_version` upwards; on any failure
return false without touching `user_version`; on success write
`user_version = Migrations.size()`. -/
def Migrate {σ : Type} (migs : List (σ → σ × Int)) (s : MigState σ) :
    MigState σ × Bool × List Nat :=
  if (migrateLoop (migs.drop s.user_version) s.user_version s.db).2.1 then
    (⟨migs.length, (migrateLoop (migs.drop s.user_version) s.user_version s.db).1⟩, true,
      (migrateLoop (migs.drop s.user_version) s.user_version s.db).2.2)
  else
    (⟨s.user_version, (migrateLoop (migs.drop s.user_version) s.user_version s.db).1⟩, false,
      (migrateLoop (migs.drop s.user_version) s.user_version s.db).2.2)

/-- A fresh database: `PRAGMA user_version` of a new sqlite database is 0. -/
def freshMigState {σ : Type} (db : σ) : MigState σ :=
  ⟨0, db⟩

theorem migrateLoop_trace {σ : Type} :
    ∀ (pending : List (σ → σ × Int)) (i : Nat) (db : σ),
      (migrateLoop pending i db).2.2 =
        List.range' i (migrateLoop pending i db).2.2.length ∧
      (migrateLoop pending i db).2.2.length ≤ pending.length ∧
      ((migrateLoop pending i db).2.1 = true →
        (migrateLoop pending i db).2.2 = List.range' i pending.length) := by
  intro pending
  induction pending with
  | nil => intro i db; simp [migrateLoop]
  | cons m rest ih =>
    intro i db
    simp only [migrateLoop]
    by_cases hfail : (m db).2 ≠ 0
    · rw [if_pos hfail]
      refine ⟨by simp [List.range'], by simp, by intro h; cases h⟩
    · rw [if_neg hfail]
      have ih' := ih (i + 1) (m db).1
      refine ⟨?_, ?_, ?_⟩
      · simp only [List.length_cons, List.range'_succ]
        rw [← ih'.1]
      · simpa using Nat.succ_le_succ ih'.2.1
      · intro hok
        simp only [List.length_cons, List.range'_succ]
        rw [← ih'.2.2 hok]

/-- C7: `Workflow::ShouldExecute` returns false when the event name is not
in the `on` set; otherwise, with a condition present (non-empty), it
returns false exactly when the condition rendered in raw-expression mode
equals boolean false, null, or the integer 0, and true for every other
rendered value; with no condition it returns true. -/
theorem shouldExecute_truthiness (w : Workflow) (event_name : String) (render : String → JVal) :
    ShouldExecute w event_name render = true ↔
      (event_name ∈ w.on_events ∧
        (w.condition = "" ∨
          ¬(render w.condition = JVal.bool false ∨
            render w.condition = JVal.null ∨
            render w.condition = JVal.int 0))) := by
  have hiff := falsyRendered_eq_true_iff (render w.condition)
  unfold ShouldExecute
  by_cases hmem : event_name ∈ w.on_events <;>
    by_cases hcond : w.condition = "" <;>
      by_cases hfal : falsyRendered (render w.condition) = true <;>
        simp_all [List.contains, List.elem_eq_mem]

/-- C8: for every starting `user_version` v, `Migrate` invokes migrations
v, v+1, ... in order; if any migration returns non-OK it reports failure,
invokes no later migration (the invoked-index list stops there), and does
not advance `user_version`; on success it writes
`user_version = len(migrations)`.  A fresh database starts at version 0. -/
theorem migrate_applies_in_order {σ : Type} (migs : List (σ → σ × Int)) (s : MigState σ) :
    (Migrate migs s).2.2 = List.range' s.user_version (Migrate migs s).2.2.length ∧
    (Migrate migs s).2.2.length ≤ migs.length - s.user_version ∧
    ((Migrate migs s).2.1 = true →
      (Migrate migs s).2.2 = List.range' s.user_version (migs.length - s.user_version) ∧
      (Migrate migs s).1.user_version = migs.length) ∧
    ((Migrate migs s).2.1 = false →
      (Migrate migs s).1.user_version = s.user_version) ∧
    (∀ d : σ, (freshMigState d).user_version = 0) := by
  have h := migrateLoop_trace (migs.drop s.user_version) s.user_version s.db
  rw [List.length_drop] at h
  unfold Migrate
  split
  · next hok =>
      exact ⟨h.1, h.2.1, fun _ => ⟨h.2.2 hok, rfl⟩, fun hc => absurd hc (by simp), fun _ => rfl⟩
  · exact ⟨h.1, h.2.1, fun hc => absurd hc (by simp), fun _ => rfl, fun _ => rfl⟩

/-- Two concrete migrations over a numeric database state, used to
instantiate the migration theorems. -/
def demoMigs : List (Nat → Nat × Int) :=
  [fun d => (d + 1, 0), fun d => (d * 2, 0)]

/-- Witness for `migrate_applies_in_order` at a concrete input: starting
from a fresh database the two demo migrations are applied in order and
the version advances to 2. -/
theorem migrate_applies_in_order_witness :
    (Migrate demoMigs ⟨0, 5⟩).2.2 = List.range' 0 (demoMigs.length - 0) ∧
    (Migrate demoMigs ⟨0, 5⟩).1.user_version = demoMigs.length :=
  (migrate_applies_in_order demoMigs ⟨0, 5⟩).2.2.1 (by decide)

/-- Modelled from the spec: the six migration bodies registered in
migrate.cpp lines 39-47 (migrations/0001 … 0006) are not part of the
sources; only the length of the migration table matters below, because a
start version above the table length makes the migration loop run zero
iterations. -/
def sixMigrations : List (Unit → Unit × Int) :=
  List.replicate 6 (fun d => (d, 0))

/-- C9 counterexample: with the six-entry migration table and a stored
user_version of 7, `Migrate` succeeds and writes user_version = 6, which
is strictly below the starting version — the stored SchemaVersion
decreases, contradicting the claim for stored versions above the table
length. -/
theorem migrate_clamps_user_version_counterexample :
    (⟨7, ()⟩ : MigState Unit).user_version = 7 ∧
    (Migrate sixMigrations ⟨7, ()⟩).2.1 = true ∧
    (Migrate sixMigrations ⟨7, ()⟩).1.user_version = 6 ∧
    (Migrate sixMigrations ⟨7, ()⟩).1.user_version < (⟨7, ()⟩ : MigState Unit).user_version := by
  refine ⟨rfl, rfl, rfl, by decide⟩

/-- C9 amended: running `Migrate` never decreases the stored user_version
provided the starting version is at most the length of the migration
list; a starting version above that length is clamped down to the length
by a successful run (see the counterexample). -/
theorem migrate_no_decrease_of_le {σ : Type} (migs : List (σ → σ × Int)) (s : MigState σ)
    (hle : s.user_version ≤ migs.length) :
    s.user_version ≤ (Migrate migs s).1.user_version := by
  unfold Migrate
  split
  · simpa using hle
  · simp

/-- Witness for `migrate_no_decrease_of_le` at a concrete input. -/
theorem migrate_no_decrease_of_le_witness :
    (⟨1, 5⟩ : MigState Nat).user_version ≤ demoMigs.length ∧
    (⟨1, 5⟩ : MigState Nat).user_version ≤ (Migrate demoMigs ⟨1, 5⟩).1.user_version :=
  ⟨by decide, migrate_no_decrease_of_le demoMigs ⟨1, 5⟩ (by decide)⟩

/-! ## Workflow runner (workflow.cpp `LoopingWorkflowRunner`)

A resolved step is abstracted as a function from the value the `steps`
context provider yields at invocation time (the list of prior step
outputs, exposed to the renderer closure the runner hands to the action)
to the output the action passes to `Complete`.  The runner keeps the
output list of `StepContextProvider` and the cursor `m_current_index`;
`Complete` appends the output, advances the cursor and re-invokes `Run`
until the cursor passes the end. -/

def runnerSteps (pending : List (List JVal → JVal)) (outs : List JVal) (idx : Nat) :
    List (Nat × List JVal) × List JVal :=
  match pending with
  | [] => ([], outs)
  | act :: rest =>
    let r := runnerSteps rest (outs ++ [act outs]) (idx + 1)
    ((idx, outs) :: r.1, r.2)

/-- `Workflow::Execute` after all actions resolved: run the looping
runner from cursor 0 with an empty `steps` provider.  The first
component is the invocation trace (step index, value of the `steps`
context at that step's invocation); the second is the final output
list. -/
def runWorkflow (actions : List (List JVal → JVal)) : List (Nat × List JVal) × List JVal :=
  runnerSteps actions [] 0

theorem runnerSteps_out_append :
    ∀ (pending : List (List JVal → JVal)) (outs : List JVal) (idx : Nat),
      ∃ rest, (runnerSteps pending outs idx).2 = outs ++ rest ∧ rest.length = pending.length := by
  intro pending
  induction pending with
  | nil => intro outs idx; exact ⟨[], by simp [runnerSteps]⟩
  | cons act tl ih =>
    intro outs idx
    obtain ⟨rest, hr, hl⟩ := ih (outs ++ [act outs]) (idx + 1)
    refine ⟨act outs :: rest, ?_, by simp [hl]⟩
    simp only [runnerSteps, hr]
    simp

theorem runnerSteps_trace_len :
    ∀ (pending : List (List JVal → JVal)) (outs : List JVal) (idx : Nat),
      (runnerSteps pending outs idx).1.length = pending.length := by
  intro pending
  induction pending with
  | nil => intro outs idx; simp [runnerSteps]
  | cons act tl ih => intro outs idx; simp [runnerSteps, ih]

theorem runnerSteps_take_out :
    ∀ (pending : List (List JVal → JVal)) (outs : List JVal) (idx : Nat),
      (runnerSteps pending outs idx).2.take outs.length = outs := by
  intro pending outs idx
  obtain ⟨rest, hr, _⟩ := runnerSteps_out_append pending outs idx
  rw [hr, List.take_left]

theorem runnerSteps_trace_get :
    ∀ (pending : List (List JVal → JVal)) (outs : List JVal) (idx j : Nat),
      (runnerSteps pending outs idx).1[j]? =
        if j < pending.length then
          some (idx + j, (runnerSteps pending outs idx).2.take (outs.length + j))
        else none := by
  intro pending
  induction pending with
  | nil => intro outs idx j; simp [runnerSteps]
  | cons act tl ih =>
    intro outs idx j
    match j with
    | 0 =>
      simp only [runnerSteps, List.getElem?_cons_zero, List.length_cons, Nat.add_zero]
      rw [if_pos (Nat.succ_pos tl.length)]
      obtain ⟨rest, hr, _⟩ := runnerSteps_out_append tl (outs ++ [act outs]) (idx + 1)
      rw [hr, List.append_assoc, List.take_left]
    | j' + 1 =>
      simp only [runnerSteps, List.getElem?_cons_succ, List.length_cons]
      rw [ih (outs ++ [act outs]) (idx + 1) j']
      have harith1 : idx + 1 + j' = idx + (j' + 1) := by omega
      have harith2 : (outs ++ [act outs]).length + j' = outs.length + (j' + 1) := by
        simp; omega
      rw [harith1, harith2]
      by_cases hj : j' < tl.length
      · rw [if_pos hj, if_pos (by omega)]
      · rw [if_neg hj, if_neg (by omega)]

theorem runnerSteps_out_get :
    ∀ (pending : List (List JVal → JVal)) (outs : List JVal) (idx j : Nat),
      (runnerSteps pending outs idx).2[outs.length + j]? =
        (pending[j]?).map
          (fun a => a ((runnerSteps pending outs idx).2.take (outs.length + j))) := by
  intro pending
  induction pending with
  | nil =>
    intro outs idx j
    simp only [runnerSteps, List.getElem?_nil, Option.map_none]
    exact List.getElem?_eq_none (Nat.le_add_right _ _)
  | cons act tl ih =>
    intro outs idx j
    match j with
    | 0 =>
      simp only [runnerSteps, List.getElem?_cons_zero, Option.map_some, Nat.add_zero]
      have htake : (runnerSteps tl (outs ++ [act outs]) (idx + 1)).2.take outs.length = outs := by
        obtain ⟨rest, hr, _⟩ := runnerSteps_out_append tl (outs ++ [act outs]) (idx + 1)
        rw [hr, List.append_assoc, List.take_left]
      rw [htake]
      obtain ⟨rest, hr, _⟩ := runnerSteps_out_append tl (outs ++ [act outs]) (idx + 1)
      rw [hr, List.getElem?_append_left (by simp)]
      simp [List.getElem?_concat_length]
    | j' + 1 =>
      simp only [runnerSteps, List.getElem?_cons_succ]
      have harith : outs.length + (j' + 1) = (outs ++ [act outs]).length + j' := by
        simp; omega
      rw [harith, ih (outs ++ [act outs]) (idx + 1) j']

/-- C6: for every workflow whose actions all resolve, the looping runner
executes steps strictly sequentially (the model is the sequential
recursion of `Complete`/`Run`, so at most one step is in flight by
construction); when step i is invoked, the `steps` context provider
yields exactly the outputs of steps 0..i-1 in completion order (the
empty list for the first step), and the output list gains exactly one
entry, the completing step's output, per completed step. -/
theorem loopingRunner_sequencing (actions : List (List JVal → JVal)) (i : Nat) :
    (runWorkflow actions).1.length = actions.length ∧
    (runWorkflow actions).2.length = actions.length ∧
    (runWorkflow actions).1[i]? =
      (if i < actions.length then some (i, (runWorkflow actions).2.take i) else none) ∧
    (runWorkflow actions).2[i]? =
      (actions[i]?).map (fun a => a ((runWorkflow actions).2.take i)) := by
  refine ⟨runnerSteps_trace_len actions [] 0, ?_, ?_, ?_⟩
  · obtain ⟨rest, hr, hl⟩ := runnerSteps_out_append actions [] 0
    simp [runWorkflow, hr, hl]
  · have := runnerSteps_trace_get actions [] 0 i
    simpa [runWorkflow] using this
  · have := runnerSteps_out_get actions [] 0 i
    simpa [runWorkflow] using this

/-! ## One-shot torrent callbacks (session.cpp `m_oneshot_torrent_callbacks`)

The registry is a `std::map<std::pair<int, lt::info_hash_t>, std::vector<cb>>`,
embedded as an association list with unique keys by construction; keys are
(alert type, info hash) pairs with info hashes abstracted as naturals.
The payload type is generic: claim C5 uses bare callback identities,
claim C4 uses the recheck restore closure data. -/

/-- The alert type tag of `lt::torrent_checked_alert`; an opaque constant
distinct from all other alert type tags. -/
def torrentCheckedAlertType : Nat := 45

def rlookup {γ : Type} : List ((Nat × Nat) × List γ) → Nat × Nat → Option (List γ)
  | [], _ => none
  | (k, v) :: rest, key => if k = key then some v else rlookup rest key

/-- Registration (session.cpp lines 448-453): `contains`-check inserting
an empty vector followed by `at(key).emplace_back(cb)`; on an
association list with unique keys this appends to the entry if present
and adds a fresh singleton entry otherwise. -/
def rappend {γ : Type} : List ((Nat × Nat) × List γ) → Nat × Nat → γ → List ((Nat × Nat) × List γ)
  | [], key, cb => [(key, [cb])]
  | (k, v) :: rest, key, cb =>
    if k = key then (k, v ++ [cb]) :: rest else (k, v) :: rappend rest key cb

/-- `m_oneshot_torrent_callbacks.erase(key)` (session.cpp line 679):
removes the (unique) entry for the key. -/
def rerase {γ : Type} : List ((Nat × Nat) × List γ) → Nat × Nat → List ((Nat × Nat) × List γ)
  | [], _ => []
  | (k, v) :: rest, key => if k = key then rest else (k, v) :: rerase rest key

/-- All callbacks stored anywhere in the registry. -/
def regCbs {γ : Type} (r : List ((Nat × Nat) × List γ)) : List γ :=
  (r.map Prod.snd).flatten

/-- Events affecting the one-shot registry: a registration issued by
`Session::Recheck` (always at key `(torrent_checked, hash)`), or an
alert of some type for some torrent arriving in `Session::ReadAlerts`. -/
inductive AlertEvent where
  | register (hash : Nat) (cb : Nat)
  | alert (atype : Nat) (hash : Nat)

/-- One step of the dispatcher: registration appends; a
`torrent_checked` alert fires the entire list at its key in order and
erases the key in the same step (session.cpp lines 667-682); any other
alert leaves the registry alone and fires nothing. -/
def oneshotStep (r : List ((Nat × Nat) × List Nat)) :
    AlertEvent → List ((Nat × Nat) × List Nat) × List Nat
  | AlertEvent.register h cb => (rappend r (torrentCheckedAlertType, h) cb, [])
  | AlertEvent.alert t h =>
    if t = torrentCheckedAlertType then
      match rlookup r (t, h) with
      | some cbs => (rerase r (t, h), cbs)
      | none => (r, [])
    else (r, [])

/-- Run the dispatcher over an event stream, collecting fired callbacks
in firing order. -/
def oneshotRun (r : List ((Nat × Nat) × List Nat)) :
    List AlertEvent → List ((Nat × Nat) × List Nat) × List Nat
  | [] => (r, [])
  | e :: es =>
    ((oneshotRun (oneshotStep r e).1 es).1,
      (oneshotStep r e).2 ++ (oneshotRun (oneshotStep r e).1 es).2)

/-- The callback identities registered by an event stream. -/
def eventRegIds : List AlertEvent → List Nat
  | [] => []
  | AlertEvent.register _ cb :: es => cb :: eventRegIds es
  | AlertEvent.alert _ _ :: es => eventRegIds es

theorem regCbs_rappend_perm {γ : Type} :
    ∀ (r : List ((Nat × Nat) × List γ)) (key : Nat × Nat) (cb : γ),
      List.Perm (regCbs (rappend r key cb)) (cb :: regCbs r) := by
  intro r
  induction r with
  | nil => intro key cb; simp [rappend, regCbs]
  | cons e rest ih =>
    intro key cb
    obtain ⟨k, v⟩ := e
    by_cases hk : k = key
    · simp only [rappend, if_pos hk, regCbs, List.map_cons, List.flatten_cons,
        List.append_assoc, List.singleton_append]
      exact List.perm_middle
    · simp only [rappend, if_neg hk, regCbs, List.map_cons, List.flatten_cons]
      exact (List.Perm.append_left v (ih key cb)).trans List.perm_middle

theorem regCbs_rerase_perm {γ : Type} :
    ∀ (r : List ((Nat × Nat) × List γ)) (key : Nat × Nat) (cbs : List γ),
      rlookup r key = some cbs →
      List.Perm (regCbs r) (cbs ++ regCbs (rerase r key)) := by
  intro r
  induction r with
  | nil => intro key cbs h; cases h
  | cons e rest ih =>
    intro key cbs h
    obtain ⟨k, v⟩ := e
    by_cases hk : k = key
    · simp only [rlookup, if_pos hk] at h
      cases h
      simp only [rerase, if_pos hk, regCbs, List.map_cons, List.flatten_cons]
      exact List.Perm.refl _
    · simp only [rlookup, if_neg hk] at h
      simp only [rerase, if_neg hk, regCbs, List.map_cons, List.flatten_cons]
      have h2 := List.Perm.append_left v (ih key cbs h)
      refine h2.trans ?_
      rw [← List.append_assoc, ← List.append_assoc]
      exact List.Perm.append_right _ List.perm_append_comm

/-- Conservation of callbacks: over any event stream, the callbacks that
were stored initially or registered during the stream are, up to
permutation, exactly the fired ones plus the ones still stored. -/
theorem oneshotRun_perm :
    ∀ (es : List AlertEvent) (r : List ((Nat × Nat) × List Nat)),
      List.Perm (regCbs r ++ eventRegIds es)
        ((oneshotRun r es).2 ++ regCbs (oneshotRun r es).1) := by
  intro es
  induction es with
  | nil => intro r; simp [oneshotRun, eventRegIds]
  | cons e es ih =>
    intro r
    match e with
    | AlertEvent.register h cb =>
      simp only [oneshotRun, oneshotStep, eventRegIds, List.append_assoc]
      have ihr := ih (rappend r (torrentCheckedAlertType, h) cb)
      have hreg := regCbs_rappend_perm r (torrentCheckedAlertType, h) cb
      have step1 : List.Perm (regCbs r ++ (cb :: eventRegIds es))
          (regCbs (rappend r (torrentCheckedAlertType, h) cb) ++ eventRegIds es) :=
        List.Perm.trans List.perm_middle (List.Perm.symm (List.Perm.append_right _ hreg))
      simpa using step1.trans ihr
    | AlertEvent.alert t h =>
      simp only [oneshotRun, eventRegIds]
      by_cases ht : t = torrentCheckedAlertType
      · simp only [oneshotStep, if_pos ht]
        cases hl : rlookup r (t, h) with
        | none =>
          simp only []
          exact ih r
        | some cbs =>
          simp only []
          have herase := regCbs_rerase_perm r (t, h) cbs hl
          have ihr := ih (rerase r (t, h))
          have step1 : List.Perm (regCbs r ++ eventRegIds es)
              ((cbs ++ regCbs (rerase r (t, h))) ++ eventRegIds es) :=
            List.Perm.append_right _ herase
          have step2 : List.Perm ((cbs ++ regCbs (rerase r (t, h))) ++ eventRegIds es)
              (cbs ++ (regCbs (rerase r (t, h)) ++ eventRegIds es)) := by
            rw [List.append_assoc]
          have step3 := List.Perm.append_left cbs ihr
          have := (step1.trans step2).trans step3
          simpa [List.append_assoc] using this
      · simp only [oneshotStep, if_neg ht]
        exact ih r

theorem oneshotRun_append :
    ∀ (es₁ es₂ : List AlertEvent) (r : List ((Nat × Nat) × List Nat)),
      oneshotRun r (es₁ ++ es₂) =
        ((oneshotRun (oneshotRun r es₁).1 es₂).1,
          (oneshotRun r es₁).2 ++ (oneshotRun (oneshotRun r es₁).1 es₂).2) := by
  intro es₁
  induction es₁ with
  | nil => intro es₂ r; simp [oneshotRun]
  | cons e es ih =>
    intro es₂ r
    simp only [List.cons_append, oneshotRun, List.append_eq, ih, List.append_assoc]

theorem oneshotRun_registrations :
    ∀ (cbs : List Nat) (h : Nat) (pre : List Nat),
      oneshotRun [((torrentCheckedAlertType, h), pre)]
          (cbs.map (AlertEvent.register h)) =
        ([((torrentCheckedAlertType, h), pre ++ cbs)], []) := by
  intro cbs
  induction cbs with
  | nil => intro h pre; simp [oneshotRun]
  | cons c rest ih =>
    intro h pre
    have hstep : oneshotStep [((torrentCheckedAlertType, h), pre)] (AlertEvent.register h c)
        = ([((torrentCheckedAlertType, h), pre ++ [c])], []) := by
      simp [oneshotStep, rappend]
    simp only [List.map_cons, oneshotRun, hstep]
    rw [ih h (pre ++ [c])]
    simp

/-- C5: over every stream of registrations and alerts, the one-shot
callbacks registered at `(torrent_checked, H)` fire at most once each
(the fired list has no duplicates whenever the registered identities are
distinct); a block of registrations followed by the matching
`torrent_checked` alert fires exactly the registered callbacks in
registration (FIFO) order and removes the whole key atomically with the
firing (the key is gone from the registry afterwards); an alert of a
different kind, or one whose key has no entry, fires nothing and leaves
the registry unchanged. -/
theorem oneshot_callbacks_fifo (r : List ((Nat × Nat) × List Nat)) (es : List AlertEvent)
    (cbs : List Nat) (hash t h : Nat)
    (hnd : (regCbs r ++ eventRegIds es).Nodup) :
    (oneshotRun r es).2.Nodup ∧
    (oneshotRun [] (cbs.map (AlertEvent.register hash) ++
        [AlertEvent.alert torrentCheckedAlertType hash])).2 = cbs ∧
    rlookup (oneshotRun [] (cbs.map (AlertEvent.register hash) ++
        [AlertEvent.alert torrentCheckedAlertType hash])).1
        (torrentCheckedAlertType, hash) = none ∧
    (t ≠ torrentCheckedAlertType → oneshotStep r (AlertEvent.alert t h) = (r, [])) ∧
    (rlookup r (t, h) = none → oneshotStep r (AlertEvent.alert t h) = (r, [])) := by
  have hfired : (oneshotRun r es).2.Nodup := by
    have hperm := oneshotRun_perm es r
    exact List.Nodup.of_append_left (hperm.nodup hnd)
  have hfifo : (oneshotRun [] (cbs.map (AlertEvent.register hash) ++
        [AlertEvent.alert torrentCheckedAlertType hash])).2 = cbs ∧
      rlookup (oneshotRun [] (cbs.map (AlertEvent.register hash) ++
        [AlertEvent.alert torrentCheckedAlertType hash])).1
        (torrentCheckedAlertType, hash) = none := by
    match cbs with
    | [] =>
      simp [oneshotRun, oneshotStep, rlookup]
    | c :: rest =>
      rw [oneshotRun_append]
      have hregs : oneshotRun [] ((c :: rest).map (AlertEvent.register hash)) =
          ([((torrentCheckedAlertType, hash), c :: rest)], []) := by
        simp only [List.map_cons, oneshotRun, oneshotStep, rappend]
        rw [oneshotRun_registrations rest hash [c]]
        simp
      rw [hregs]
      simp [oneshotRun, oneshotStep, rlookup, rerase]
  refine ⟨hfired, hfifo.1, hfifo.2, ?_, ?_⟩
  · intro hne
    simp [oneshotStep, if_neg hne]
  · intro hnone
    by_cases ht : t = torrentCheckedAlertType
    · simp only [oneshotStep, if_pos ht]
      rw [hnone]
    · simp [oneshotStep, if_neg ht]

/-- A concrete event stream: two rechecks registered for torrent 1, then
the matching `torrent_checked` alert. -/
def demoEvents : List AlertEvent :=
  [AlertEvent.register 1 10, AlertEvent.register 1 11,
    AlertEvent.alert torrentCheckedAlertType 1]

/-- Witness for `oneshot_callbacks_fifo` at a concrete input. -/
theorem oneshot_callbacks_fifo_witness :
    ((oneshotRun [] demoEvents).2).Nodup :=
  (oneshot_callbacks_fifo [] demoEvents [] 0 0 0 (by decide)).1

/-! ## Session torrent map, Recheck and Remove (session.cpp)

Torrent handles are reduced to the two engine flags Recheck manipulates;
`m_torrents` is an association list from info hash to handle state.
Engine-side effects are recorded in a call trace so that ordering claims
can be stated. -/

structure LtTorrent where
  auto_managed : Bool
  paused : Bool
deriving DecidableEq

def mlookup : List (Nat × LtTorrent) → Nat → Option LtTorrent
  | [], _ => none
  | (k, v) :: rest, h => if k = h then some v else mlookup rest h

def mupdate : List (Nat × LtTorrent) → Nat → (LtTorrent → LtTorrent) → List (Nat × LtTorrent)
  | [], _, _ => []
  | (k, v) :: rest, h, f => if k = h then (k, f v) :: rest else (k, v) :: mupdate rest h f

/-- The engine calls issued by `Session::Recheck`, its one-shot restore
callback and `Session::Remove`. -/
inductive ECall where
  | unset_auto_managed (h : Nat)
  | resume_torrent (h : Nat)
  | set_auto_managed (h : Nat)
  | pause_torrent (h : Nat)
  | force_recheck (h : Nat)
  | remove_torrent (h : Nat) (delete_files : Bool)
deriving DecidableEq

/-- The data captured by the restore closure registered in
`Session::Recheck` (session.cpp lines 453-473). -/
structure RecheckCb where
  hash : Nat
  was_auto_managed : Bool
  was_paused : Bool
deriving DecidableEq

/-- Session state touched by Recheck/Remove: the in-memory torrent map,
the one-shot callback registry and the persisted info-hash rows. -/
structure SessState where
  torrents : List (Nat × LtTorrent)
  oneshot : List ((Nat × Nat) × List RecheckCb)
  store : List Nat
deriving DecidableEq

/-- Embedding of `Session::Recheck` (session.cpp lines 424-476):
`m_torrents.at(hash)` throws before anything else happens when the hash
is absent (modelled as the error return, with no state change and no
engine call); otherwise snapshot and clear `auto_managed`, then resume a
paused torrent (the paused flag is read after the auto_managed update,
as in the source, which reads `handle.flags()` twice), register the
restore callback and invoke `force_recheck`. -/
def Recheck (s : SessState) (h : Nat) : Except Unit (SessState × List ECall) :=
  match mlookup s.torrents h with
  | none => Except.error ()
  | some t =>
    let calls1 := if t.auto_managed then [ECall.unset_auto_managed h] else []
    let t1 : LtTorrent := if t.auto_managed then { t with auto_managed := false } else t
    let calls2 := if t1.paused then [ECall.resume_torrent h] else []
    let t2 : LtTorrent := if t1.paused then { t1 with paused := false } else t1
    Except.ok
      ({ s with
          torrents := mupdate s.torrents h (fun _ => t2),
          oneshot := rappend s.oneshot (torrentCheckedAlertType, h)
            ⟨h, t.auto_managed, t1.paused⟩ },
        calls1 ++ calls2 ++ [ECall.force_recheck h])

/-- Embedding of `Session::Remove` (session.cpp lines 478-483):
`m_torrents.at(hash)` throws when absent; otherwise the only effect is
the engine call `remove_torrent` with the `delete_files` flag iff
`remove_data` (persistence and map removal happen later on the
`torrent_removed` alert). -/
def Remove (s : SessState) (h : Nat) (remove_data : Bool) :
    Except Unit (SessState × List ECall) :=
  match mlookup s.torrents h with
  | none => Except.error ()
  | some _ => Except.ok (s, [ECall.remove_torrent h remove_data])

/-- The restore closure body (session.cpp lines 454-473): bail out if
the torrent left the map; otherwise re-apply auto_managed first, then
re-pause. -/
def fireRecheckCb (m : List (Nat × LtTorrent)) (cb : RecheckCb) :
    List (Nat × LtTorrent) × List ECall :=
  if (mlookup m cb.hash).isSome then
    let m1 := if cb.was_auto_managed then
        mupdate m cb.hash (fun t => { t with auto_managed := true }) else m
    let c1 := if cb.was_auto_managed then [ECall.set_auto_managed cb.hash] else []
    let m2 := if cb.was_paused then
        mupdate m1 cb.hash (fun t => { t with paused := true }) else m1
    let c2 := if cb.was_paused then [ECall.pause_torrent cb.hash] else []
    (m2, c1 ++ c2)
  else (m, [])

def fireRecheckCbs (m : List (Nat × LtTorrent)) :
    List RecheckCb → List (Nat × LtTorrent) × List ECall
  | [] => (m, [])
  | cb :: rest =>
    ((fireRecheckCbs (fireRecheckCb m cb).1 rest).1,
      (fireRecheckCb m cb).2 ++ (fireRecheckCbs (fireRecheckCb m cb).1 rest).2)

/-- The `torrent_checked` branch of `Session::ReadAlerts` (session.cpp
lines 667-682): fire every callback at the key in order, then erase the
key. -/
def onTorrentChecked (s : SessState) (h : Nat) : SessState × List ECall :=
  match rlookup s.oneshot (torrentCheckedAlertType, h) with
  | none => (s, [])
  | some cbs =>
    (⟨(fireRecheckCbs s.torrents cbs).1,
        rerase s.oneshot (torrentCheckedAlertType, h), s.store⟩,
      (fireRecheckCbs s.torrents cbs).2)

/-- The session state after `Recheck` returns normally (unchanged when
the lookup throws). -/
def postRecheckState (s : SessState) (h : Nat) : SessState :=
  match Recheck s h with
  | Except.ok r => r.1
  | Except.error _ => s

/-- The session state after `Remove` returns normally (unchanged when
the lookup throws). -/
def postRemoveState (s : SessState) (h : Nat) (remove_data : Bool) : SessState :=
  match Remove s h remove_data with
  | Except.ok r => r.1
  | Except.error _ => s

theorem mlookup_mupdate_self :
    ∀ (m : List (Nat × LtTorrent)) (h : Nat) (f : LtTorrent → LtTorrent),
      mlookup (mupdate m h f) h = (mlookup m h).map f := by
  intro m
  induction m with
  | nil => intro h f; simp [mlookup, mupdate]
  | cons e rest ih =>
    intro h f
    obtain ⟨k, v⟩ := e
    by_cases hk : k = h
    · simp [mupdate, mlookup, if_pos hk]
    · simp [mupdate, mlookup, if_neg hk, ih]

theorem rlookup_rappend_self {γ : Type} :
    ∀ (r : List ((Nat × Nat) × List γ)) (key : Nat × Nat) (cb : γ),
      rlookup (rappend r key cb) key = some ((rlookup r key).getD [] ++ [cb]) := by
  intro r
  induction r with
  | nil => intro key cb; simp [rappend, rlookup]
  | cons e rest ih =>
    intro key cb
    obtain ⟨k, v⟩ := e
    by_cases hk : k = key
    · simp [rappend, rlookup, if_pos hk]
    · simp [rappend, rlookup, if_neg hk, ih]

/-- C4: for a torrent present in the map, a single `Recheck(H)` followed
by the `torrent_checked` alert (with H still in the map, which the
recheck leaves untouched) restores `auto_managed` and `paused` to
exactly their values observed immediately before `Recheck`, and the
restore callback issues its engine calls in the order: re-apply
auto_managed first, then re-pause. -/
theorem recheck_restores_flags (s : SessState) (h : Nat) (t : LtTorrent)
    (hm : mlookup s.torrents h = some t)
    (hkey : rlookup s.oneshot (torrentCheckedAlertType, h) = none) :
    mlookup (onTorrentChecked (postRecheckState s h) h).1.torrents h = some t ∧
    (onTorrentChecked (postRecheckState s h) h).2 =
      (if t.auto_managed then [ECall.set_auto_managed h] else []) ++
      (if t.paused then [ECall.pause_torrent h] else []) := by
  obtain ⟨am, p⟩ := t
  have hpost : postRecheckState s h =
      { s with
        torrents := mupdate s.torrents h
          (fun _ => if (if am then (⟨false, p⟩ : LtTorrent) else ⟨am, p⟩).paused
            then { (if am then (⟨false, p⟩ : LtTorrent) else ⟨am, p⟩) with paused := false }
            else (if am then (⟨false, p⟩ : LtTorrent) else ⟨am, p⟩)),
        oneshot := rappend s.oneshot (torrentCheckedAlertType, h)
          ⟨h, am, (if am then (⟨false, p⟩ : LtTorrent) else ⟨am, p⟩).paused⟩ } := by
    simp [postRecheckState, Recheck, hm]
  rw [hpost]
  simp only [onTorrentChecked, rlookup_rappend_self, hkey, Option.getD_none, List.nil_append]
  cases am <;> cases p <;>
    simp [fireRecheckCbs, fireRecheckCb, mlookup_mupdate_self, hm]

/-- A session with one torrent (hash 1) that is auto-managed and paused,
an empty one-shot registry and one persisted row. -/
def demoSess : SessState :=
  ⟨[(1, ⟨true, true⟩)], [], [7]⟩

/-- Witness for `recheck_restores_flags` at a concrete input. -/
theorem recheck_restores_flags_witness :
    mlookup (onTorrentChecked (postRecheckState demoSess 1) 1).1.torrents 1 =
      some ⟨true, true⟩ ∧
    (onTorrentChecked (postRecheckState demoSess 1) 1).2 =
      (if (⟨true, true⟩ : LtTorrent).auto_managed then [ECall.set_auto_managed 1] else []) ++
      (if (⟨true, true⟩ : LtTorrent).paused then [ECall.pause_torrent 1] else []) :=
  recheck_restores_flags demoSess 1 ⟨true, true⟩ (by decide) (by decide)

/-- C10: `Session::Recheck` and `Session::Remove` on a hash absent from
the in-memory map fail at the map lookup (`m_torrents.at` throws) before
any engine call is made, leaving the engine, the map, the one-shot
registry and the persistence store unchanged: the embedding returns the
error with the original state and an empty engine-call trace. -/
theorem missing_hash_throws (s : SessState) (h : Nat) (remove_data : Bool)
    (hnone : mlookup s.torrents h = none) :
    Recheck s h = Except.error () ∧
    Remove s h remove_data = Except.error () ∧
    postRecheckState s h = s ∧
    postRemoveState s h remove_data = s := by
  refine ⟨?_, ?_, ?_, ?_⟩ <;>
    simp [Recheck, Remove, postRecheckState, postRemoveState, hnone]

/-- Witness for `missing_hash_throws` at a concrete input: hash 5 is not
in the demo session map. -/
theorem missing_hash_throws_witness :
    Recheck demoSess 5 = Except.error () ∧
    Remove demoSess 5 true = Except.error () ∧
    postRecheckState demoSess 5 = demoSess ∧
    postRemoveState demoSess 5 true = demoSess :=
  missing_hash_throws demoSess 5 true (by decide)

/-! ## Shutdown resume-data save pass (session.cpp `Session::~Session`)

The destructor partitions the torrent map into `size/1000 + 1` chunks of
at most 1000 entries, requests a resume save for every valid torrent
with metadata and `need_save_resume`, and drains alerts until the
outstanding counter for the chunk reaches zero.  The engine is modelled
by a response function: `some payload` means the save succeeds with that
resume payload (a `save_resume_data` alert), `none` means a
`save_resume_data_failed` alert; the environment assumption that the
engine answers every requested save exactly once is what makes the
outstanding counter reach zero, as the claim presumes. -/

structure ShutTorrent where
  hash : Nat
  is_valid : Bool
  has_metadata : Bool
  need_save_resume : Bool
deriving DecidableEq

/-- The filter of session.cpp lines 226-228 (negated): a save is
requested for a torrent iff its handle is valid, it has metadata, and it
needs a resume save. -/
def qualifiesForSave (t : ShutTorrent) : Bool :=
  t.is_valid && t.has_metadata && t.need_save_resume

def chunkAt (l : List ShutTorrent) (i : Nat) : List ShutTorrent :=
  (l.drop (i * 1000)).take 1000

/-- The chunking of session.cpp lines 206-217: `size/1000 + 1` chunks,
each of `min(1000, remaining)` consecutive torrents (the final chunk may
be empty). -/
def shutdownChunks (l : List ShutTorrent) : List (List ShutTorrent) :=
  (List.range (l.length / 1000 + 1)).map (chunkAt l)

inductive ShutAlert where
  | torrent_paused
  | save_failed (h : Nat)
  | save_ok (h : Nat) (payload : Nat)
deriving DecidableEq

/-- The modelled engine: one response alert per requested save. -/
def engineResponses (respond : Nat → Option Nat) (requested : List Nat) : List ShutAlert :=
  requested.map (fun h =>
    match respond h with
    | some d => ShutAlert.save_ok h d
    | none => ShutAlert.save_failed h)

/-- The drain loop of session.cpp lines 246-286: while outstanding > 0,
ignore `torrent_paused`, log-and-decrement on `save_resume_data_failed`,
decrement-and-upsert on `save_resume_data`.  Returns the remaining
outstanding count, the persisted rows (hash, payload) and the logged
failures. -/
def drainChunk : Nat → List ShutAlert → List (Nat × Nat) → List Nat →
    Nat × List (Nat × Nat) × List Nat
  | 0, _, per, log => (0, per, log)
  | o + 1, [], per, log => (o + 1, per, log)
  | o + 1, a :: rest, per, log =>
    match a with
    | ShutAlert.torrent_paused => drainChunk (o + 1) rest per log
    | ShutAlert.save_failed h => drainChunk o rest per (log ++ [h])
    | ShutAlert.save_ok h d => drainChunk o rest (per ++ [(h, d)]) log

/-- The hashes for which a chunk requests `save_resume_data`
(session.cpp lines 221-242). -/
def chunkRequested (chunk : List ShutTorrent) : List Nat :=
  (chunk.filter qualifiesForSave).map ShutTorrent.hash

/-- One chunk of the shutdown pass: request saves, then drain the
engine responses until outstanding reaches zero.  The third accumulator
component records the outstanding counter left when each chunk's drain
loop exits. -/
def chunkStep (respond : Nat → Option Nat)
    (acc : List (Nat × Nat) × List Nat × List Nat) (chunk : List ShutTorrent) :
    List (Nat × Nat) × List Nat × List Nat :=
  ((drainChunk (chunkRequested chunk).length
      (engineResponses respond (chunkRequested chunk)) acc.1 acc.2.1).2.1,
    (drainChunk (chunkRequested chunk).length
      (engineResponses respond (chunkRequested chunk)) acc.1 acc.2.1).2.2,
    acc.2.2 ++ [(drainChunk (chunkRequested chunk).length
      (engineResponses respond (chunkRequested chunk)) acc.1 acc.2.1).1])

/-- The full shutdown save pass of `Session::~Session`. -/
def shutdownPass (respond : Nat → Option Nat) (torrents : List ShutTorrent) :
    List (Nat × Nat) × List Nat × List Nat :=
  (shutdownChunks torrents).foldl (chunkStep respond) ([], [], [])

theorem drainChunk_responses (respond : Nat → Option Nat) :
    ∀ (reqs : List Nat) (per : List (Nat × Nat)) (log : List Nat),
      drainChunk reqs.length (engineResponses respond reqs) per log =
        (0,
          per ++ reqs.filterMap (fun h => (respond h).map (fun d => (h, d))),
          log ++ reqs.filter (fun h => (respond h).isNone)) := by
  intro reqs
  induction reqs with
  | nil => intro per log; simp [drainChunk, engineResponses]
  | cons h rest ih =>
    intro per log
    cases hr : respond h with
    | some d =>
      simp only [engineResponses, List.map_cons, hr, List.length_cons, drainChunk]
      rw [show engineResponses respond rest = List.map _ rest from rfl] at ih
      rw [ih (per ++ [(h, d)]) log]
      simp [List.filterMap_cons, List.filter_cons, hr]
    | none =>
      simp only [engineResponses, List.map_cons, hr, List.length_cons, drainChunk]
      rw [show engineResponses respond rest = List.map _ rest from rfl] at ih
      rw [ih per (log ++ [h])]
      simp [List.filterMap_cons, List.filter_cons, hr]

theorem chunkStep_spec (respond : Nat → Option Nat)
    (acc : List (Nat × Nat) × List Nat × List Nat) (chunk : List ShutTorrent) :
    chunkStep respond acc chunk =
      (acc.1 ++ (chunkRequested chunk).filterMap (fun h => (respond h).map (fun d => (h, d))),
        acc.2.1 ++ (chunkRequested chunk).filter (fun h => (respond h).isNone),
        acc.2.2 ++ [0]) := by
  unfold chunkStep
  rw [drainChunk_responses]

theorem foldl_chunk_mono (respond : Nat → Option Nat) :
    ∀ (chunks : List (List ShutTorrent)) (acc : List (Nat × Nat) × List Nat × List Nat),
      (∀ x, x ∈ acc.1 → x ∈ (List.foldl (chunkStep respond) acc chunks).1) ∧
      (∀ y, y ∈ acc.2.1 → y ∈ (List.foldl (chunkStep respond) acc chunks).2.1) := by
  intro chunks
  induction chunks with
  | nil => intro acc; exact ⟨fun x hx => hx, fun y hy => hy⟩
  | cons c cs ih =>
    intro acc
    simp only [List.foldl_cons]
    refine ⟨fun x hx => ?_, fun y hy => ?_⟩
    · exact (ih (chunkStep respond acc c)).1 x
        (by rw [chunkStep_spec]; exact List.mem_append_left _ hx)
    · exact (ih (chunkStep respond acc c)).2 y
        (by rw [chunkStep_spec]; exact List.mem_append_left _ hy)

theorem foldl_chunk_hit (respond : Nat → Option Nat) :
    ∀ (chunks : List (List ShutTorrent)) (acc : List (Nat × Nat) × List Nat × List Nat)
      (c : List ShutTorrent) (t : ShutTorrent),
      c ∈ chunks → t ∈ c → qualifiesForSave t = true →
      (match respond t.hash with
        | some d => (t.hash, d) ∈ (List.foldl (chunkStep respond) acc chunks).1
        | none => t.hash ∈ (List.foldl (chunkStep respond) acc chunks).2.1) := by
  intro chunks
  induction chunks with
  | nil => intro acc c t hc; cases hc
  | cons hd tl ih =>
    intro acc c t hc htc hq
    have hreq : t.hash ∈ chunkRequested c := by
      unfold chunkRequested
      exact List.mem_map.mpr ⟨t, List.mem_filter.mpr ⟨htc, hq⟩, rfl⟩
    simp only [List.foldl_cons]
    rcases List.mem_cons.mp hc with hcase | hcase
    · subst hcase
      cases hr : respond t.hash with
      | some d =>
        have hmem : (t.hash, d) ∈ (chunkStep respond acc c).1 := by
          rw [chunkStep_spec]
          refine List.mem_append_right _ (List.mem_filterMap.mpr ⟨t.hash, hreq, ?_⟩)
          rw [hr]; rfl
        exact (foldl_chunk_mono respond tl (chunkStep respond acc c)).1 _ hmem
      | none =>
        have hmem : t.hash ∈ (chunkStep respond acc c).2.1 := by
          rw [chunkStep_spec]
          refine List.mem_append_right _ (List.mem_filter.mpr ⟨hreq, ?_⟩)
          rw [hr]; rfl
        exact (foldl_chunk_mono respond tl (chunkStep respond acc c)).2 _ hmem
    · exact ih (chunkStep respond acc hd) c t hcase htc hq

theorem foldl_chunk_outs (respond : Nat → Option Nat) :
    ∀ (chunks : List (List ShutTorrent)) (acc : List (Nat × Nat) × List Nat × List Nat),
      (∀ o ∈ acc.2.2, o = 0) →
      ∀ o ∈ (List.foldl (chunkStep respond) acc chunks).2.2, o = 0 := by
  intro chunks
  induction chunks with
  | nil => intro acc hacc; exact hacc
  | cons c cs ih =>
    intro acc hacc
    simp only [List.foldl_cons]
    refine ih (chunkStep respond acc c) ?_
    rw [chunkStep_spec]
    intro o ho
    rcases List.mem_append.mp ho with h1 | h1
    · exact hacc o h1
    · simpa using h1

theorem mem_shutdownChunks (l : List ShutTorrent) (t : ShutTorrent) (ht : t ∈ l) :
    ∃ c ∈ shutdownChunks l, t ∈ c := by
  obtain ⟨idx, hlt, hget⟩ := List.mem_iff_getElem.mp ht
  refine ⟨chunkAt l (idx / 1000), ?_, ?_⟩
  · unfold shutdownChunks
    refine List.mem_map.mpr ⟨idx / 1000, List.mem_range.mpr ?_, rfl⟩
    exact Nat.lt_succ_of_le (Nat.div_le_div_right (Nat.le_of_lt hlt))
  · have hj : idx % 1000 < 1000 := Nat.mod_lt _ (by omega)
    have hidx : idx / 1000 * 1000 + idx % 1000 = idx := by
      rw [Nat.mul_comm]
      exact Nat.div_add_mod idx 1000
    have hsome : (chunkAt l (idx / 1000))[idx % 1000]? = some t := by
      unfold chunkAt
      rw [List.getElem?_take, if_pos hj, List.getElem?_drop, hidx,
        List.getElem?_eq_getElem hlt, hget]
    exact List.getElem?_mem hsome

theorem shutdownChunks_short (l : List ShutTorrent) :
    ∀ c ∈ shutdownChunks l, c.length ≤ 1000 := by
  intro c hc
  obtain ⟨i, _, rfl⟩ := List.mem_map.mp hc
  exact List.length_take_le _ _

/-- C3: under the engine assumption that every requested save receives
exactly one response alert (success with the resume payload, or
failure), every torrent that was valid, had metadata and had
`need_save_resume` when the shutdown save pass visited it ends up either
persisted with the payload of its `save_resume_data` alert or in the
logged `save_resume_data_failed` list; the pass partitions the torrents
into chunks of at most 1000; and every chunk's drain loop exits only
with its outstanding counter at zero. -/
theorem shutdown_saves_all (respond : Nat → Option Nat) (torrents : List ShutTorrent)
    (t : ShutTorrent) (ht : t ∈ torrents) (hq : qualifiesForSave t = true) :
    (match respond t.hash with
      | some d => (t.hash, d) ∈ (shutdownPass respond torrents).1
      | none => t.hash ∈ (shutdownPass respond torrents).2.1) ∧
    (∀ c ∈ shutdownChunks torrents, c.length ≤ 1000) ∧
    (∀ o ∈ (shutdownPass respond torrents).2.2, o = 0) := by
  obtain ⟨c, hc, htc⟩ := mem_shutdownChunks torrents t ht
  refine ⟨foldl_chunk_hit respond (shutdownChunks torrents) ([], [], []) c t hc htc hq,
    shutdownChunks_short torrents, ?_⟩
  exact foldl_chunk_outs respond (shutdownChunks torrents) ([], [], []) (by simp)

/-- The engine response used in the shutdown witness: every save
succeeds with payload hash + 41. -/
def demoRespond : Nat → Option Nat := fun h => some (h + 41)

/-- A single qualifying torrent for the shutdown witness. -/
def demoShutTorrents : List ShutTorrent := [⟨1, true, true, true⟩]

/-- Witness for `shutdown_saves_all` at a concrete input. -/
theorem shutdown_saves_all_witness :
    ((1 : Nat), (42 : Nat)) ∈ (shutdownPass demoRespond demoShutTorrents).1 :=
  (shutdown_saves_all demoRespond demoShutTorrents ⟨1, true, true, true⟩
    (by decide) (by decide)).1

/-! ## Media-info prefetcher (session.cpp AddTorrent setup + piece_finished)

Files are modelled by their size, extension and first piece index;
`pieceSize` is the engine's per-piece size function and `numPieces` the
torrent's `end_piece`/`num_pieces`.  Piece sets (`unordered_set<int>`)
are lists with dedup insertion so that `size()` is `length`; the two
`map<int, unordered_set<int>>` fields are association lists.  Media-info
extraction (`MediaInfo::Parser::ParseExternal`) is abstracted as a
function from the file index to an optional parsed container. -/

def top_priority : Nat := 7
def dont_download : Nat := 0
def default_priority : Nat := 4

structure MFile where
  size : Nat
  ext : String
  firstPiece : Nat
deriving DecidableEq

structure MediainfoCfg where
  min_size : Nat
  wanted_size : Nat
  extensions : List String
deriving DecidableEq

/-- The `TorrentClientData` fields driven by the prefetcher. -/
structure ClientData where
  mediainfo : Option Nat
  mediainfo_enabled : Option Bool
  mediainfo_enabled_staggered : Option Bool
  pieces_wanted : Option (List (Nat × List Nat))
  pieces_completed : Option (List (Nat × List Nat))
deriving DecidableEq

def ClientData.init : ClientData := ⟨none, none, none, none, none⟩

def flookup : List (Nat × List Nat) → Nat → Option (List Nat)
  | [], _ => none
  | (k, v) :: rest, key => if k = key then some v else flookup rest key

def fset : List (Nat × List Nat) → Nat → List Nat → List (Nat × List Nat)
  | [], _, _ => []
  | (k, v) :: rest, key, nv => if k = key then (k, nv) :: rest else (k, v) :: fset rest key nv

/-- `unordered_set<int>::insert`. -/
def sinsert (s : List Nat) (x : Nat) : List Nat :=
  if s.contains x then s else s ++ [x]

/-- The piece-collection loop of session.cpp lines 369-379: starting at
the file's first piece, accumulate piece sizes until the asked size
reaches `wanted_size` or the torrent's end piece is passed.  `fuel` is
`end_piece - p`, so `fuel = 0` is the `file_piece >= files.end_piece()`
break. -/
def collectWanted (pieceSize : Nat → Nat) (wantedSize : Nat) :
    Nat → Nat → Nat → List Nat
  | fuel, p, asked =>
    if asked < wantedSize then
      match fuel with
      | 0 => []
      | fuel' + 1 =>
        p :: collectWanted pieceSize wantedSize fuel' (p + 1) (asked + pieceSize p)
    else []

/-- The engine priority calls made by the prefetcher:
`prioritize_pieces` with a uniform vector over all pieces, or with a
targeted (piece, priority) list. -/
inductive PrioCall where
  | all_pieces (prio : Nat) (count : Nat)
  | targeted (prios : List (Nat × Nat))
deriving DecidableEq

/-- The per-file filter of session.cpp lines 357-363: a file is selected
iff it is not below the minimum size and its extension is configured. -/
def selectedBySetup (cfg : MediainfoCfg) (f : MFile) : Bool :=
  !(f.size < cfg.min_size) && cfg.extensions.contains f.ext

/-- The file scan of the media-info setup (session.cpp lines 352-390):
for each selected file, collect its wanted pieces into `piece_prio` and
build FRESH single-entry `wanted`/`completed` maps which are then
assigned to the client data, overwriting whatever a previous iteration
stored there — this is the overwrite the source performs. -/
def mediainfoSetupScan (cfg : MediainfoCfg) (pieceSize : Nat → Nat) (numPieces : Nat) :
    List (Nat × MFile) → ClientData → List (Nat × Nat) → ClientData × List (Nat × Nat)
  | [], cd, prio => (cd, prio)
  | (i, f) :: rest, cd, prio =>
    if f.size < cfg.min_size then
      mediainfoSetupScan cfg pieceSize numPieces rest cd prio
    else if cfg.extensions.contains f.ext then
      mediainfoSetupScan cfg pieceSize numPieces rest
        { cd with
            pieces_wanted :=
              some [(i, collectWanted pieceSize cfg.wanted_size
                (numPieces - f.firstPiece) f.firstPiece 0)],
            pieces_completed := some [(i, [])] }
        (prio ++ (collectWanted pieceSize cfg.wanted_size
          (numPieces - f.firstPiece) f.firstPiece 0).map (fun p => (p, top_priority)))
    else
      mediainfoSetupScan cfg pieceSize numPieces rest cd prio

/-- The media-info prefetch setup run by `Session::AddTorrent` when
daemon-wide media-info is enabled (session.cpp lines 346-405): scan the
files, then, if any piece was prioritized, set every piece to
`dont_download`, apply the targeted priorities, and set
`mediainfo_enabled`. -/
def mediainfoSetup (cfg : MediainfoCfg) (pieceSize : Nat → Nat) (numPieces : Nat)
    (files : List MFile) (cd0 : ClientData) : ClientData × List PrioCall :=
  if (mediainfoSetupScan cfg pieceSize numPieces files.enum cd0 []).2.isEmpty then
    ((mediainfoSetupScan cfg pieceSize numPieces files.enum cd0 []).1, [])
  else
    ({ (mediainfoSetupScan cfg pieceSize numPieces files.enum cd0 []).1 with
        mediainfo_enabled := some true },
      [PrioCall.all_pieces dont_download numPieces,
        PrioCall.targeted (mediainfoSetupScan cfg pieceSize numPieces files.enum cd0 []).2])

/-- State threaded through the `piece_finished` loop over the wanted
map (session.cpp lines 544-574). -/
structure PFState where
  wanted : List (Nat × List Nat)
  completed : List (Nat × List Nat)
  mediainfo : Option Nat
  extractions : List Nat
deriving DecidableEq

/-- The loop body of session.cpp lines 544-574, iterating the wanted
map's keys: skip empty wanted sets; insert a matching piece into the
file's completed set; when the completed set reaches the wanted set's
size, run extraction (storing the container on success, recorded in
`extractions`) and clear both sets. -/
def pfLoop (parse : Nat → Option Nat) (piece : Nat) : List Nat → PFState → PFState
  | [], st => st
  | k :: keys, st =>
    if ((flookup st.wanted k).getD []).isEmpty then
      pfLoop parse piece keys st
    else
      if (if ((flookup st.wanted k).getD []).contains piece then
            sinsert ((flookup st.completed k).getD []) piece
          else (flookup st.completed k).getD []).length
          = ((flookup st.wanted k).getD []).length then
        pfLoop parse piece keys
          { wanted := fset st.wanted k []
            completed := fset st.completed k []
            mediainfo :=
              match parse k with
              | some m => some m
              | none => st.mediainfo
            extractions := st.extractions ++ [k] }
      else
        pfLoop parse piece keys
          { st with
              completed := fset st.completed k
                (if ((flookup st.wanted k).getD []).contains piece then
                  sinsert ((flookup st.completed k).getD []) piece
                else (flookup st.completed k).getD []) }

structure PFResult where
  cd : ClientData
  extractions : List Nat
  prio_calls : List PrioCall
  posted : Bool
deriving DecidableEq

/-- The `piece_finished` handler of `Session::ReadAlerts`
(session.cpp lines 530-608): bail out when no wanted map exists, it is
empty, or `mediainfo_enabled` is not true; otherwise run the loop over
the wanted map and, if afterwards every completed set is empty, restore
every piece to `default_priority`, drop both maps, clear
`mediainfo_enabled`, set `mediainfo_enabled_staggered` and post the
`torrent-mediainfo` event. -/
def pieceFinished (parse : Nat → Option Nat) (numPieces : Nat) (cd : ClientData)
    (piece : Nat) : PFResult :=
  match cd.pieces_wanted with
  | none => ⟨cd, [], [], false⟩
  | some w =>
    if w.isEmpty || !(cd.mediainfo_enabled.getD false) then ⟨cd, [], [], false⟩
    else
      if (pfLoop parse piece (w.map Prod.fst)
            ⟨w, (cd.pieces_completed).getD [], cd.mediainfo, []⟩).completed.all
          (fun kv => kv.2.isEmpty) then
        ⟨{ cd with
            mediainfo := (pfLoop parse piece (w.map Prod.fst)
              ⟨w, (cd.pieces_completed).getD [], cd.mediainfo, []⟩).mediainfo,
            pieces_wanted := none,
            pieces_completed := none,
            mediainfo_enabled := some false,
            mediainfo_enabled_staggered := some true },
          (pfLoop parse piece (w.map Prod.fst)
            ⟨w, (cd.pieces_completed).getD [], cd.mediainfo, []⟩).extractions,
          [PrioCall.all_pieces default_priority numPieces], true⟩
      else
        ⟨{ cd with
            mediainfo := (pfLoop parse piece (w.map Prod.fst)
              ⟨w, (cd.pieces_completed).getD [], cd.mediainfo, []⟩).mediainfo,
            pieces_wanted := some (pfLoop parse piece (w.map Prod.fst)
              ⟨w, (cd.pieces_completed).getD [], cd.mediainfo, []⟩).wanted,
            pieces_completed := some (pfLoop parse piece (w.map Prod.fst)
              ⟨w, (cd.pieces_completed).getD [], cd.mediainfo, []⟩).completed },
          (pfLoop parse piece (w.map Prod.fst)
            ⟨w, (cd.pieces_completed).getD [], cd.mediainfo, []⟩).extractions,
          [], false⟩

structure TFResult where
  cd : ClientData
  emitted : Bool
  save_requested : Bool
deriving DecidableEq

/-- The `torrent_finished` handler of `Session::ReadAlerts`
(session.cpp lines 684-713): emit `torrent-finished` only when data was
downloaded and the staggered flag is not set; the write
`mediainfo_enabled_staggered = false` sits inside the branch that is
only taken when the flag is already not-true, exactly as in the source;
a resume save is requested whenever `need_save_resume` holds. -/
def torrentFinishedHandler (cd : ClientData) (total_download : Nat)
    (need_save_resume : Bool) : TFResult :=
  if 0 < total_download ∧ cd.mediainfo_enabled_staggered.getD false = false then
    ⟨{ cd with mediainfo_enabled_staggered := some false }, true, need_save_resume⟩
  else
    ⟨cd, false, need_save_resume⟩

/-- Dispatch a sequence of `piece_finished` alerts, accumulating every
media-info extraction request. -/
def runPieces (parse : Nat → Option Nat) (numPieces : Nat) :
    ClientData → List Nat → ClientData × List Nat
  | cd, [] => (cd, [])
  | cd, p :: ps =>
    ((runPieces parse numPieces (pieceFinished parse numPieces cd p).cd ps).1,
      (pieceFinished parse numPieces cd p).extractions ++
        (runPieces parse numPieces (pieceFinished parse numPieces cd p).cd ps).2)

/-- Prefetch configuration for the evidence input: minimum size 10,
wanted size 100 bytes, `.mkv` selected. -/
def demoCfg : MediainfoCfg := ⟨10, 100, [".mkv"]⟩

/-- Uniform 50-byte pieces. -/
def demoPieceSize : Nat → Nat := fun _ => 50

/-- Two files, both selected by the setup filter: file 0 occupies pieces
from 0, file 1 from piece 10; each needs pieces [first, first+1] for the
100-byte wanted size. -/
def demoFiles : List MFile := [⟨100, ".mkv", 0⟩, ⟨100, ".mkv", 10⟩]

/-- Extraction succeeds for every file. -/
def demoParse : Nat → Option Nat := fun i => some (100 + i)

/-- The client data produced by the media-info setup on the demo
torrent. -/
def demoSetupCd : ClientData :=
  (mediainfoSetup demoCfg demoPieceSize 20 demoFiles ClientData.init).1

/-- C1: evidence that the source violates the claim.  Both demo files
pass the prefetch filter, yet after setup the wanted map holds only the
LAST selected file (the per-file fresh maps overwrite the client data,
session.cpp lines 381-388), and the very first finished piece — piece 0,
one of file 0's own prioritized pieces, which is not in file 1's wanted
set — leaves every (initially empty) completed set empty, so the
all-completed check of lines 579-585 fires: priorities are restored,
the maps are dropped and the staggered flag is set with ZERO extraction
requests; even after all four prioritized pieces finish, no extraction
is ever requested, where the claim demands exactly one per selected
file. -/
theorem mediainfo_two_file_prefetch_bug :
    demoFiles.all (selectedBySetup demoCfg) = true ∧
    demoSetupCd.pieces_wanted = some [(1, [10, 11])] ∧
    demoSetupCd.mediainfo_enabled = some true ∧
    (pieceFinished demoParse 20 demoSetupCd 0).extractions = [] ∧
    (pieceFinished demoParse 20 demoSetupCd 0).prio_calls
      = [PrioCall.all_pieces default_priority 20] ∧
    (pieceFinished demoParse 20 demoSetupCd 0).posted = true ∧
    (pieceFinished demoParse 20 demoSetupCd 0).cd.pieces_wanted = none ∧
    (runPieces demoParse 20 demoSetupCd [0, 1, 10, 11]).2 = [] := by
  decide

/-- The client data after the prefetch terminates on the demo torrent:
`mediainfo_enabled_staggered` is set. -/
def demoPrefetchedCd : ClientData := (pieceFinished demoParse 20 demoSetupCd 0).cd

/-- C2: evidence that the source violates the claim.  With the staggered
flag set after prefetch completion, the first subsequent
`torrent_finished` with downloaded data is suppressed but the flag is
NOT cleared (the `mediainfo_enabled_staggered = false` write at
session.cpp line 695 sits inside the branch only taken when the flag is
already not-true, a no-op), so the second such alert is suppressed as
well, where the claim says it must emit; without the flag the handler
does emit. -/
theorem torrent_finished_staggered_bug :
    demoPrefetchedCd.mediainfo_enabled_staggered = some true ∧
    (torrentFinishedHandler demoPrefetchedCd 5 false).emitted = false ∧
    (torrentFinishedHandler demoPrefetchedCd 5 false).cd.mediainfo_enabled_staggered
      = some true ∧
    (torrentFinishedHandler
      (torrentFinishedHandler demoPrefetchedCd 5 false).cd 5 false).emitted = false ∧
    (torrentFinishedHandler ClientData.init 5 false).emitted = true := by
  decide
